import Mathlib

/-!
# Verification of the dream-terrain height-field synthesizer

Shallow embedding of `src/tools/blender/generate_dream_terrain.py` (and the
`ridged_multifractal` variant of `generate_epic_terrain.py`).

Modelling conventions:
* Python floats are modelled as real numbers (`ℝ`); float rounding is
  abstracted away, the claims under study are about exact arithmetic
  structure (max-blending, clamps, bounds), not about rounding.
* Blender's coherent noise primitive `mathutils.noise.noise` is an external
  C function; it is modelled as an explicit function parameter
  `nz : ℝ → ℝ → ℝ → ℝ` threaded through every definition, so that every
  embedded function is literally a pure function of its inputs.
* Python's built-in `hash : str → int` is salted per interpreter process
  (PYTHONHASHSEED); it is therefore modelled as an explicit parameter
  `h : String → ℤ`.  A fixed `h` corresponds to one interpreter run.
* The module-level data tables `MOUNTAIN_RANGES` / `RIVER_VALLEYS` are
  passed as explicit list parameters; the numeric module constants
  (`WORLD_SIZE`, `SEED`, ...) are kept as the shipped constants.
* Python's `%` on integers with a positive modulus agrees with `Int.emod`.
-/

noncomputable section

namespace DreamTerrain

/-- Type of the Blender noise primitive `mathutils.noise.noise` (a pure
function of the 3-D sample coordinate). -/
abbrev NoiseFn := ℝ → ℝ → ℝ → ℝ

/-- Type of Python's built-in string hash for one interpreter process. -/
abbrev HashFn := String → ℤ

/-- `WORLD_SIZE = 3000` -/
def WORLD_SIZE : ℝ := 3000

/-- `RESOLUTION = 200` -/
def RESOLUTION : ℕ := 200

/-- `MAX_HEIGHT = 450` -/
def MAX_HEIGHT : ℝ := 450

/-- `WATER_LEVEL = -8` -/
def WATER_LEVEL : ℝ := -8

/-- `SEED = 42069` -/
def SEED : ℝ := 42069

/-- `simple_noise(x, y, z=0, seed=0)`:
`noise.noise(Vector((x + seed * 0.1, y + seed * 0.1, z)))`. -/
def simple_noise (nz : NoiseFn) (x y z seed : ℝ) : ℝ :=
  nz (x + seed * 0.1) (y + seed * 0.1) z

/-- The loop of `fbm`, by recursion on the remaining octave count.
`i` is the current octave index, `freq`/`amp` the loop-carried frequency and
amplitude.  Returns the pair `(total, max_value)`. -/
def fbmAux (nz : NoiseFn) (x y seed pers lac : ℝ) :
    ℕ → ℕ → ℝ → ℝ → ℝ × ℝ
  | 0, _, _, _ => (0, 0)
  | k + 1, i, freq, amp =>
      let rest := fbmAux nz x y seed pers lac k (i + 1) (freq * lac) (amp * pers)
      (simple_noise nz (x * freq) (y * freq) 0 (seed + i * 100) * amp + rest.1,
       amp + rest.2)

/-- `fbm(x, y, octaves=6, persistence=0.5, lacunarity=2.0, scale=1.0, seed=0)`:
fractal Brownian motion; the loop starts at `frequency = 1.0 / scale`,
`amplitude = 1.0`, and the result is `total / max_value`. -/
def fbm (nz : NoiseFn) (x y : ℝ) (octaves : ℕ) (pers lac scale seed : ℝ) : ℝ :=
  let r := fbmAux nz x y seed pers lac octaves 0 (1 / scale) 1
  r.1 / r.2

/-- The loop of `ridged_multifractal`, by recursion on the remaining octave
count; `prev` is the loop-carried previous-octave value (initially `1.0`).
Per octave: `n = (1 - |noise|)²` then `n = n * prev`, `total += n * amplitude`,
`amplitude *= 0.5`, `frequency *= 2.2`. -/
def ridgedAux (nz : NoiseFn) (x y seed : ℝ) :
    ℕ → ℕ → ℝ → ℝ → ℝ → ℝ
  | 0, _, _, _, _ => 0
  | k + 1, i, freq, amp, prev =>
      let n := (1 - |simple_noise nz (x * freq) (y * freq) 0 (seed + i * 50)|) ^ 2 * prev
      n * amp + ridgedAux nz x y seed k (i + 1) (freq * 2.2) (amp * 0.5) n

/-- `ridged_multifractal(x, y, octaves=5, scale=1.0, seed=0)` of
`generate_dream_terrain.py`. -/
def ridged_multifractal (nz : NoiseFn) (x y : ℝ) (octaves : ℕ) (scale seed : ℝ) : ℝ :=
  ridgedAux nz x y seed octaves 0 (1 / scale) 1 1

/-- The loop of the `generate_epic_terrain.py` variant of
`ridged_multifractal`: the noise is sampled at
`(x * frequency + seed, y * frequency + seed, seed * 0.1)`, frequency grows
by `2.1` per octave, amplitude halves; same fold/sharpen/weight steps. -/
def ridgedEpicAux (nz : NoiseFn) (x y seed : ℝ) :
    ℕ → ℝ → ℝ → ℝ → ℝ
  | 0, _, _, _ => 0
  | k + 1, freq, amp, prev =>
      let n := (1 - |nz (x * freq + seed) (y * freq + seed) (seed * 0.1)|) ^ 2 * prev
      n * amp + ridgedEpicAux nz x y seed k (freq * 2.1) (amp * 0.5) n

/-- `ridged_multifractal(x, y, octaves=6, seed=0)` of
`generate_epic_terrain.py`. -/
def ridged_multifractal_epic (nz : NoiseFn) (x y : ℝ) (octaves : ℕ) (seed : ℝ) : ℝ :=
  ridgedEpicAux nz x y seed octaves 1 1 1

/-- `domain_warp(x, y, strength=0.4, scale=500, seed=0)`: two independent
3-octave fBm fields (seed offsets `+1000/+2000` on the coordinates and
`+100` on the second seed) scaled by `strength * scale` and added to the
input point. -/
def domain_warp (nz : NoiseFn) (x y strength scale seed : ℝ) : ℝ × ℝ :=
  let warp_x := fbm nz (x + 1000) (y + 1000) 3 0.5 2 scale seed * strength * scale
  let warp_y := fbm nz (x + 2000) (y + 2000) 3 0.5 2 scale (seed + 100) * strength * scale
  (x + warp_x, y + warp_y)

/-- One entry of the `MOUNTAIN_RANGES` table. `peaks` is the sub-peak count
(`peak_count` in the spec); `style` is the literal style string, branched on
by equality with an `else`-fallback to the "eroded" shaping, exactly as in
the source. -/
structure MountainRange where
  name : String
  center : ℝ × ℝ
  radius : ℝ
  peak_height : ℝ
  peaks : ℕ
  style : String

/-- One entry of the `RIVER_VALLEYS` table (`start`/`end`/`width`/`name`).
`end` is a Lean keyword, so the two waypoints are called `vstart`/`vend`. -/
structure ValleyPath where
  name : String
  vstart : ℝ × ℝ
  vend : ℝ × ℝ
  width : ℝ

/-- `distance_to_line_segment(px, py, x1, y1, x2, y2)`: distance from a point
to a finite segment, with the `length_sq == 0` degenerate case returning the
distance to the (coincident) endpoint. -/
def distance_to_line_segment (px py x1 y1 x2 y2 : ℝ) : ℝ :=
  let dx := x2 - x1
  let dy := y2 - y1
  let length_sq := dx * dx + dy * dy
  if length_sq = 0 then
    Real.sqrt ((px - x1) ^ 2 + (py - y1) ^ 2)
  else
    let t := max 0 (min 1 (((px - x1) * dx + (py - y1) * dy) / length_sq))
    let proj_x := x1 + t * dx
    let proj_y := y1 + t * dy
    Real.sqrt ((px - proj_x) ^ 2 + (py - proj_y) ^ 2)

/-- The loop body of `calculate_valley_depth` for one valley:
`min_depth = max(min_depth, depth)` only when `dist < width * 2`. -/
def valleyStep (x y : ℝ) (acc : ℝ) (v : ValleyPath) : ℝ :=
  let dist := distance_to_line_segment x y v.vstart.1 v.vstart.2 v.vend.1 v.vend.2
  if dist < v.width * 2 then
    max acc ((1 - dist / (v.width * 2)) ^ 2 * 40)
  else acc

/-- `calculate_valley_depth(x, y)`: fold of `valleyStep` over the valley
table, accumulator starting at `0`. -/
def calculate_valley_depth (valleys : List ValleyPath) (x y : ℝ) : ℝ :=
  valleys.foldl (valleyStep x y) 0

/-- The valley cross-section profile as a function of segment distance:
`(1 - dist/(2·width))² · 40` inside `dist < 2·width`, else `0`
(the source's `influence²  * 40` with `max_valley_depth = 40`). -/
def valleyProfile (w d : ℝ) : ℝ :=
  if d < w * 2 then (1 - d / (w * 2)) ^ 2 * 40 else 0

/-- The carved depth of a single valley at `(x, y)` (the `depth` computed in
the loop body, or `0` outside the `dist < width * 2` region). -/
def valleyDepthOne (v : ValleyPath) (x y : ℝ) : ℝ :=
  valleyProfile v.width
    (distance_to_line_segment x y v.vstart.1 v.vstart.2 v.vend.1 v.vend.2)

/-- The style-shaped primary peak factor (`peak` in
`calculate_mountain_height`) of one range at `(x, y)`; `influence` is the
radial influence of the range at the query point. -/
def primaryPeak (h : HashFn) (nz : NoiseFn) (m : MountainRange) (x y : ℝ) : ℝ :=
  let dist := Real.sqrt ((x - m.center.1) ^ 2 + (y - m.center.2) ^ 2)
  let influence := max 0 (1 - dist / m.radius)
  if m.style = "jagged" then
    influence ^ (1.5 : ℝ) *
      (0.7 + ridged_multifractal nz x y 6 150 (SEED + (h m.name : ℝ)) * 0.5)
  else if m.style = "ridged" then
    influence ^ (1.3 : ℝ) *
      (0.6 + ridged_multifractal nz x y 5 200 (SEED + (h m.name : ℝ)) * 0.6)
  else if m.style = "volcanic" then
    (if influence > 0.9 then influence ^ (2.5 : ℝ) * 0.8 else influence ^ (2.5 : ℝ))
  else if m.style = "massive" then
    influence ^ (1.2 : ℝ) *
      (0.8 + ridged_multifractal nz x y 4 300 (SEED + (h m.name : ℝ)) * 0.3)
  else
    influence ^ (1.8 : ℝ) *
      (0.5 + fbm nz x y 5 0.5 2 100 (SEED + (h m.name : ℝ)) * 0.3)

/-- `peak * mtn["peak_height"]` — the primary height of one range before
sub-peaks. -/
def primaryHeight (h : HashFn) (nz : NoiseFn) (m : MountainRange) (x y : ℝ) : ℝ :=
  primaryPeak h nz m x y * m.peak_height

/-- The sub-peak loop body for sub-peak index `i`:
`height = max(height, sub_height)` only when `sub_dist < sub_radius`.
The jitter source is Python's `hash(name + str(i))`; `%` is `Int.emod`,
matching Python's `%` for the positive modulus `100`. -/
def subPeakStep (h : HashFn) (m : MountainRange) (x y : ℝ) (acc : ℝ) (i : ℕ) : ℝ :=
  let k : ℤ := h (m.name ++ toString i)
  let angle := ((i : ℝ) / (m.peaks : ℝ)) * Real.pi * 2 + (k : ℝ) * 0.1
  let peak_dist := m.radius * (0.3 + ((k % 100 : ℤ) : ℝ) / 200)
  let peak_x := m.center.1 + Real.cos angle * peak_dist
  let peak_y := m.center.2 + Real.sin angle * peak_dist
  let sub_dist := Real.sqrt ((x - peak_x) ^ 2 + (y - peak_y) ^ 2)
  let sub_radius := m.radius * 0.3
  if sub_dist < sub_radius then
    max acc ((1 - sub_dist / sub_radius) ^ 2 * m.peak_height * 0.6)
  else acc

/-- The `sub_height` a single sub-peak would contribute on its own (`0`
outside its radius). -/
def subPeakBump (h : HashFn) (m : MountainRange) (x y : ℝ) (i : ℕ) : ℝ :=
  let k : ℤ := h (m.name ++ toString i)
  let angle := ((i : ℝ) / (m.peaks : ℝ)) * Real.pi * 2 + (k : ℝ) * 0.1
  let peak_dist := m.radius * (0.3 + ((k % 100 : ℤ) : ℝ) / 200)
  let peak_x := m.center.1 + Real.cos angle * peak_dist
  let peak_y := m.center.2 + Real.sin angle * peak_dist
  let sub_dist := Real.sqrt ((x - peak_x) ^ 2 + (y - peak_y) ^ 2)
  let sub_radius := m.radius * 0.3
  if sub_dist < sub_radius then
    (1 - sub_dist / sub_radius) ^ 2 * m.peak_height * 0.6
  else 0

/-- The body of the `for mtn in MOUNTAIN_RANGES` loop:
inside `dist < radius * 1.5`, compute the primary height, fold the sub-peak
loop over `range(peaks)` starting from it, and update the accumulator with
`max`; otherwise leave the accumulator unchanged. -/
def mountainStep (h : HashFn) (nz : NoiseFn) (x y : ℝ) (acc : ℝ) (m : MountainRange) : ℝ :=
  let dist := Real.sqrt ((x - m.center.1) ^ 2 + (y - m.center.2) ^ 2)
  if dist < m.radius * 1.5 then
    let height := (List.range m.peaks).foldl (subPeakStep h m x y) (primaryHeight h nz m x y)
    max acc height
  else acc

/-- `calculate_mountain_height(x, y)`: fold of `mountainStep` over the
mountain-range table, accumulator (`total_height`) starting at `0`. -/
def calculate_mountain_height (h : HashFn) (nz : NoiseFn)
    (ranges : List MountainRange) (x y : ℝ) : ℝ :=
  ranges.foldl (mountainStep h nz x y) 0

/-- `half_size = WORLD_SIZE / 2` -/
def half_size : ℝ := WORLD_SIZE / 2

/-- The edge-falloff step of `calculate_height` as a function of the
Chebyshev distance `d = max(|x|, |y|)` and the incoming height:
if `d > half_size * 0.8`, multiply by the clamped linear falloff and
subtract `(1 - falloff) * 50`. -/
def edgeFalloffAt (d hgt : ℝ) : ℝ :=
  if d > half_size * 0.8 then
    let falloff := max 0 (1 - (d - half_size * 0.8) / (half_size * 0.2))
    hgt * falloff - (1 - falloff) * 50
  else hgt

/-- The layer combination of `calculate_height` before the two final
corrections: one domain warp, then
`base + hills + detail + mountains - valley_depth`, where base/hills/detail
sample the warped coordinates and the mountain/valley contributions sample
the original `(x, y)`. -/
def layerSum (h : HashFn) (nz : NoiseFn) (ranges : List MountainRange)
    (valleys : List ValleyPath) (x y : ℝ) : ℝ :=
  let w := domain_warp nz x y 0.3 600 SEED
  let base := fbm nz w.1 w.2 4 0.5 2 800 SEED * 25 + 15
  let hills := fbm nz w.1 w.2 5 0.5 2 300 (SEED + 1000) * 40
  let detail := fbm nz w.1 w.2 6 0.5 2 80 (SEED + 2000) * 10
  let mountains := calculate_mountain_height h nz ranges x y
  let valley_depth := calculate_valley_depth valleys x y
  base + hills + detail + mountains - valley_depth

/-- The height after the edge falloff, before the spawn clamp. -/
def heightAfterEdge (h : HashFn) (nz : NoiseFn) (ranges : List MountainRange)
    (valleys : List ValleyPath) (x y : ℝ) : ℝ :=
  edgeFalloffAt (max |x| |y|) (layerSum h nz ranges valleys x y)

/-- `calculate_height(x, y)`: the master height function; the spawn-area
clamp `height = max(height, 5)` applies when `sqrt(x² + y²) < 100`, after
everything else. -/
def calculate_height (h : HashFn) (nz : NoiseFn) (ranges : List MountainRange)
    (valleys : List ValleyPath) (x y : ℝ) : ℝ :=
  if Real.sqrt (x ^ 2 + y ^ 2) < 100 then
    max (heightAfterEdge h nz ranges valleys x y) 5
  else heightAfterEdge h nz ranges valleys x y

/-- The heightmap of `create_terrain_mesh()`: the
`(RESOLUTION+1) × (RESOLUTION+1)` row-major grid of `calculate_height`
samples at `x = -half_size + ix * step`, `y = -half_size + iy * step`,
`step = WORLD_SIZE / RESOLUTION` (the z-coordinates of the vertex buffer,
in vertex order). -/
def heightGrid (h : HashFn) (nz : NoiseFn) (ranges : List MountainRange)
    (valleys : List ValleyPath) : List (List ℝ) :=
  let step := WORLD_SIZE / (RESOLUTION : ℝ)
  (List.range (RESOLUTION + 1)).map fun iy : ℕ =>
    (List.range (RESOLUTION + 1)).map fun ix : ℕ =>
      calculate_height h nz ranges valleys
        (-half_size + (ix : ℝ) * step) (-half_size + (iy : ℝ) * step)

/-- Modelled from the spec's words (§4.4/§4.6, claim C4): a variant of
`calculate_height` in which *every* layer — including the mountain and
valley contributions — samples the same warped coordinate produced by the
single domain warp.  Used only as the refinement comparison point for the
C4 counterexample; the source function is `calculate_height` above. -/
def calculate_height_specWarp (h : HashFn) (nz : NoiseFn)
    (ranges : List MountainRange) (valleys : List ValleyPath) (x y : ℝ) : ℝ :=
  let w := domain_warp nz x y 0.3 600 SEED
  let base := fbm nz w.1 w.2 4 0.5 2 800 SEED * 25 + 15
  let hills := fbm nz w.1 w.2 5 0.5 2 300 (SEED + 1000) * 40
  let detail := fbm nz w.1 w.2 6 0.5 2 80 (SEED + 2000) * 10
  let mountains := calculate_mountain_height h nz ranges w.1 w.2
  let valley_depth := calculate_valley_depth valleys w.1 w.2
  let pre := base + hills + detail + mountains - valley_depth
  let he := edgeFalloffAt (max |x| |y|) pre
  if Real.sqrt (x ^ 2 + y ^ 2) < 100 then max he 5 else he

/-! ## Generic lemmas about `max`-accumulating folds -/

/-- A fold whose step never decreases the accumulator never decreases it
overall. -/
theorem foldl_grow {α : Type} (step : ℝ → α → ℝ)
    (hg : ∀ a i, a ≤ step a i) :
    ∀ (l : List α) (a : ℝ), a ≤ l.foldl step a := by
  intro l
  induction l with
  | nil => intro a; exact le_refl a
  | cons i t ih => intro a; exact le_trans (hg a i) (ih (step a i))

/-- A `max`-accumulating fold from a nonnegative start equals the `max` of
the start with the fold from `0`. -/
theorem foldl_shift {α : Type} (step : ℝ → α → ℝ)
    (hP : ∀ a i, 0 ≤ a → step a i = max a (step 0 i))
    (hN : ∀ i, 0 ≤ step 0 i) :
    ∀ (l : List α) (a : ℝ), 0 ≤ a → l.foldl step a = max a (l.foldl step 0) := by
  intro l
  induction l with
  | nil => intro a ha; exact (max_eq_left ha).symm
  | cons i t ih =>
      intro a ha
      have h0 : 0 ≤ step 0 i := hN i
      calc (i :: t).foldl step a = t.foldl step (step a i) := rfl
        _ = t.foldl step (max a (step 0 i)) := by rw [hP a i ha]
        _ = max (max a (step 0 i)) (t.foldl step 0) :=
            ih _ (le_trans ha (le_max_left _ _))
        _ = max a (max (step 0 i) (t.foldl step 0)) := max_assoc _ _ _
        _ = max a (t.foldl step (step 0 i)) := by rw [← ih _ h0]
        _ = max a ((i :: t).foldl step 0) := rfl

/-- A `max`-accumulating fold from `0` splits over list append. -/
theorem foldl_append_max {α : Type} (step : ℝ → α → ℝ)
    (hg : ∀ a i, a ≤ step a i)
    (hP : ∀ a i, 0 ≤ a → step a i = max a (step 0 i))
    (hN : ∀ i, 0 ≤ step 0 i) (l₁ l₂ : List α) :
    (l₁ ++ l₂).foldl step 0 = max (l₁.foldl step 0) (l₂.foldl step 0) := by
  rw [List.foldl_append]
  exact foldl_shift step hP hN l₂ _ (foldl_grow step hg l₁ 0)

/-- Pulling one `max` operand out of a right fold of `max`es. -/
theorem foldr_max_shift {α : Type} (f : α → ℝ) :
    ∀ (t : List α) (p c : ℝ),
      t.foldr (fun i b => max (f i) b) (max p c) =
        max c (t.foldr (fun i b => max (f i) b) p) := by
  intro t
  induction t with
  | nil => intro p c; exact max_comm p c
  | cons j s ih =>
      intro p c
      calc (j :: s).foldr (fun i b => max (f i) b) (max p c)
          = max (f j) (s.foldr (fun i b => max (f i) b) (max p c)) := rfl
        _ = max (f j) (max c (s.foldr (fun i b => max (f i) b) p)) := by rw [ih]
        _ = max c (max (f j) (s.foldr (fun i b => max (f i) b) p)) := max_left_comm _ _ _

/-- Under an outer `max 0`, a guarded `max`-fold (whose step either takes a
`max` with a bump or leaves the accumulator alone while the bump is `0`)
equals the right fold of `max`es of the bumps. -/
theorem max0_foldl_eq_foldr {α : Type} (step : ℝ → α → ℝ) (bump : α → ℝ)
    (hsb : ∀ a i, step a i = max a (bump i) ∨ (step a i = a ∧ bump i = 0)) :
    ∀ (l : List α) (p : ℝ),
      max 0 (l.foldl step p) =
        max 0 (l.foldr (fun i b => max (bump i) b) p) := by
  intro l
  induction l with
  | nil => intro p; rfl
  | cons i t ih =>
      intro p
      have hstep : max 0 (t.foldl step (step p i)) =
          max 0 (t.foldr (fun j b => max (bump j) b) (step p i)) := ih (step p i)
      rcases hsb p i with h | ⟨hs, hb⟩
      · calc max 0 ((i :: t).foldl step p)
            = max 0 (t.foldr (fun j b => max (bump j) b) (step p i)) := hstep
          _ = max 0 (t.foldr (fun j b => max (bump j) b) (max p (bump i))) := by rw [h]
          _ = max 0 (max (bump i) (t.foldr (fun j b => max (bump j) b) p)) := by
              rw [foldr_max_shift]
          _ = max 0 ((i :: t).foldr (fun j b => max (bump j) b) p) := rfl
      · calc max 0 ((i :: t).foldl step p)
            = max 0 (t.foldr (fun j b => max (bump j) b) (step p i)) := hstep
          _ = max 0 (t.foldr (fun j b => max (bump j) b) p) := by rw [hs]
          _ = max 0 (max 0 (t.foldr (fun j b => max (bump j) b) p)) := by
              rw [← max_assoc, max_self]
          _ = max 0 (max (bump i) (t.foldr (fun j b => max (bump j) b) p)) := by rw [hb]
          _ = max 0 ((i :: t).foldr (fun j b => max (bump j) b) p) := rfl

/-! ## Bounds on the fBm loop -/

/-- The accumulated `max_value` is nonnegative when amplitude and
persistence are. -/
theorem fbmAux_snd_nonneg (nz : NoiseFn) (x y seed pers lac : ℝ) (hp : 0 ≤ pers) :
    ∀ (k i : ℕ) (freq amp : ℝ), 0 ≤ amp →
      0 ≤ (fbmAux nz x y seed pers lac k i freq amp).2 := by
  intro k
  induction k with
  | zero => intro i freq amp _; simp [fbmAux]
  | succ k ih =>
      intro i freq amp ha
      simp only [fbmAux]
      exact add_nonneg ha (ih (i + 1) (freq * lac) (amp * pers) (mul_nonneg ha hp))

/-- If the noise primitive is bounded by `1` in absolute value, the
accumulated total is bounded by the accumulated `max_value`. -/
theorem fbmAux_abs_fst_le (nz : NoiseFn) (x y seed pers lac : ℝ)
    (hnz : ∀ a b c, |nz a b c| ≤ 1) (hp : 0 ≤ pers) :
    ∀ (k i : ℕ) (freq amp : ℝ), 0 ≤ amp →
      |(fbmAux nz x y seed pers lac k i freq amp).1| ≤
        (fbmAux nz x y seed pers lac k i freq amp).2 := by
  intro k
  induction k with
  | zero => intro i freq amp _; simp [fbmAux]
  | succ k ih =>
      intro i freq amp ha
      simp only [fbmAux]
      have hn : |simple_noise nz (x * freq) (y * freq) 0 (seed + i * 100)| ≤ 1 :=
        hnz _ _ _
      have h1 : |simple_noise nz (x * freq) (y * freq) 0 (seed + i * 100) * amp| ≤ amp := by
        rw [abs_mul, abs_of_nonneg ha]
        calc |simple_noise nz (x * freq) (y * freq) 0 (seed + i * 100)| * amp
            ≤ 1 * amp := mul_le_mul_of_nonneg_right hn ha
          _ = amp := one_mul amp
      calc |simple_noise nz (x * freq) (y * freq) 0 (seed + i * 100) * amp +
              (fbmAux nz x y seed pers lac k (i + 1) (freq * lac) (amp * pers)).1|
          ≤ |simple_noise nz (x * freq) (y * freq) 0 (seed + i * 100) * amp| +
              |(fbmAux nz x y seed pers lac k (i + 1) (freq * lac) (amp * pers)).1| :=
            abs_add _ _
        _ ≤ amp + (fbmAux nz x y seed pers lac k (i + 1) (freq * lac) (amp * pers)).2 :=
            add_le_add h1 (ih (i + 1) (freq * lac) (amp * pers) (mul_nonneg ha hp))

/-- With at least one octave, the accumulated `max_value` dominates the
initial amplitude. -/
theorem fbmAux_amp_le_snd (nz : NoiseFn) (x y seed pers lac : ℝ) (hp : 0 ≤ pers) :
    ∀ (k i : ℕ) (freq amp : ℝ), 0 ≤ amp → 1 ≤ k →
      amp ≤ (fbmAux nz x y seed pers lac k i freq amp).2 := by
  intro k
  cases k with
  | zero => intro i freq amp _ hk; exact absurd hk (by norm_num)
  | succ k =>
      intro i freq amp ha _
      simp only [fbmAux]
      have := fbmAux_snd_nonneg nz x y seed pers lac hp k (i + 1) (freq * lac)
        (amp * pers) (mul_nonneg ha hp)
      linarith

/-- The constant noise field, used to instantiate theorems at concrete
noise models. -/
def constNoise (c : ℝ) : NoiseFn := fun _ _ _ => c

/-- With constant noise `c`, the accumulated total is `c` times the
accumulated `max_value`. -/
theorem fbmAux_const_fst (c x y seed pers lac : ℝ) :
    ∀ (k i : ℕ) (freq amp : ℝ),
      (fbmAux (constNoise c) x y seed pers lac k i freq amp).1 =
        c * (fbmAux (constNoise c) x y seed pers lac k i freq amp).2 := by
  intro k
  induction k with
  | zero => intro i freq amp; simp [fbmAux]
  | succ k ih =>
      intro i freq amp
      simp only [fbmAux, simple_noise, constNoise]
      rw [ih (i + 1) (freq * lac) (amp * pers)]
      ring

/-- `fbm` of a constant noise field is that constant (for at least one
octave and nonnegative persistence). -/
theorem fbm_const (c x y : ℝ) (k : ℕ) (pers lac scale seed : ℝ)
    (hk : 1 ≤ k) (hp : 0 ≤ pers) :
    fbm (constNoise c) x y k pers lac scale seed = c := by
  have hm : (1 : ℝ) ≤ (fbmAux (constNoise c) x y seed pers lac k 0 (1 / scale) 1).2 :=
    fbmAux_amp_le_snd _ x y seed pers lac hp k 0 (1 / scale) 1 zero_le_one hk
  show (fbmAux (constNoise c) x y seed pers lac k 0 (1 / scale) 1).1 /
      (fbmAux (constNoise c) x y seed pers lac k 0 (1 / scale) 1).2 = c
  rw [fbmAux_const_fst, mul_div_assoc, div_self (by linarith), mul_one]

/-- `fbm` of a nonnegative noise field is nonnegative (for nonnegative
persistence). -/
theorem fbm_nonneg (nz : NoiseFn) (x y : ℝ) (k : ℕ) (pers lac scale seed : ℝ)
    (hnz : ∀ a b c, 0 ≤ nz a b c) (hp : 0 ≤ pers) :
    0 ≤ fbm nz x y k pers lac scale seed := by
  show 0 ≤ (fbmAux nz x y seed pers lac k 0 (1 / scale) 1).1 /
      (fbmAux nz x y seed pers lac k 0 (1 / scale) 1).2
  have hfst : ∀ (k' i : ℕ) (freq amp : ℝ), 0 ≤ amp →
      0 ≤ (fbmAux nz x y seed pers lac k' i freq amp).1 := by
    intro k'
    induction k' with
    | zero => intro i freq amp _; simp [fbmAux]
    | succ k' ih =>
        intro i freq amp ha
        simp only [fbmAux, simple_noise]
        exact add_nonneg (mul_nonneg (hnz _ _ _) ha)
          (ih (i + 1) (freq * lac) (amp * pers) (mul_nonneg ha hp))
  exact div_nonneg (hfst k 0 (1 / scale) 1 zero_le_one)
    (fbmAux_snd_nonneg nz x y seed pers lac hp k 0 (1 / scale) 1 zero_le_one)

/-! ## Nonnegativity of the ridged loops -/

/-- The ridged loop accumulates a sum of nonnegative terms. -/
theorem ridgedAux_nonneg (nz : NoiseFn) (x y seed : ℝ) :
    ∀ (k i : ℕ) (freq amp prev : ℝ), 0 ≤ amp → 0 ≤ prev →
      0 ≤ ridgedAux nz x y seed k i freq amp prev := by
  intro k
  induction k with
  | zero => intro i freq amp prev _ _; simp [ridgedAux]
  | succ k ih =>
      intro i freq amp prev ha hprev
      simp only [ridgedAux]
      have hn : 0 ≤ (1 - |simple_noise nz (x * freq) (y * freq) 0 (seed + i * 50)|) ^ 2 * prev :=
        mul_nonneg (sq_nonneg _) hprev
      exact add_nonneg (mul_nonneg hn ha)
        (ih (i + 1) (freq * 2.2) (amp * 0.5) _ (by linarith) hn)

/-- The epic-terrain ridged loop accumulates a sum of nonnegative terms. -/
theorem ridgedEpicAux_nonneg (nz : NoiseFn) (x y seed : ℝ) :
    ∀ (k : ℕ) (freq amp prev : ℝ), 0 ≤ amp → 0 ≤ prev →
      0 ≤ ridgedEpicAux nz x y seed k freq amp prev := by
  intro k
  induction k with
  | zero => intro freq amp prev _ _; simp [ridgedEpicAux]
  | succ k ih =>
      intro freq amp prev ha hprev
      simp only [ridgedEpicAux]
      have hn : 0 ≤ (1 - |nz (x * freq + seed) (y * freq + seed) (seed * 0.1)|) ^ 2 * prev :=
        mul_nonneg (sq_nonneg _) hprev
      exact add_nonneg (mul_nonneg hn ha)
        (ih (freq * 2.1) (amp * 0.5) _ (by linarith) hn)

/-! ## Structure of the mountain and valley folds -/

theorem mountainStep_grow (h : HashFn) (nz : NoiseFn) (x y : ℝ) :
    ∀ (a : ℝ) (m : MountainRange), a ≤ mountainStep h nz x y a m := by
  intro a m
  simp only [mountainStep]
  split_ifs
  · exact le_max_left _ _
  · exact le_refl a

theorem mountainStep_zero_nonneg (h : HashFn) (nz : NoiseFn) (x y : ℝ)
    (m : MountainRange) : 0 ≤ mountainStep h nz x y 0 m := by
  simp only [mountainStep]
  split_ifs
  · exact le_max_left _ _
  · exact le_refl 0

theorem mountainStep_shift (h : HashFn) (nz : NoiseFn) (x y : ℝ) :
    ∀ (a : ℝ) (m : MountainRange), 0 ≤ a →
      mountainStep h nz x y a m = max a (mountainStep h nz x y 0 m) := by
  intro a m ha
  simp only [mountainStep]
  split_ifs
  · rw [← max_assoc, max_eq_left ha]
  · exact (max_eq_left ha).symm

/-- The total mountain contribution is nonnegative. -/
theorem calculate_mountain_height_nonneg (h : HashFn) (nz : NoiseFn)
    (ranges : List MountainRange) (x y : ℝ) :
    0 ≤ calculate_mountain_height h nz ranges x y :=
  foldl_grow (mountainStep h nz x y) (mountainStep_grow h nz x y) ranges 0

/-- Unfolding one range from the mountain fold: its contribution is
`max`-combined with the rest. -/
theorem calculate_mountain_height_cons (h : HashFn) (nz : NoiseFn)
    (m : MountainRange) (l : List MountainRange) (x y : ℝ) :
    calculate_mountain_height h nz (m :: l) x y =
      max (mountainStep h nz x y 0 m) (calculate_mountain_height h nz l x y) := by
  show l.foldl (mountainStep h nz x y) (mountainStep h nz x y 0 m) =
    max (mountainStep h nz x y 0 m) (l.foldl (mountainStep h nz x y) 0)
  exact foldl_shift _ (fun a i ha => mountainStep_shift h nz x y a i ha)
    (mountainStep_zero_nonneg h nz x y) l _ (mountainStep_zero_nonneg h nz x y m)

/-- The sub-peak loop step either `max`es in the sub-peak's own bump or
(outside the sub-peak radius) leaves the accumulator alone while the bump
is `0`. -/
theorem subPeakStep_cases (h : HashFn) (m : MountainRange) (x y : ℝ) :
    ∀ (a : ℝ) (i : ℕ),
      subPeakStep h m x y a i = max a (subPeakBump h m x y i) ∨
        (subPeakStep h m x y a i = a ∧ subPeakBump h m x y i = 0) := by
  intro a i
  simp only [subPeakStep, subPeakBump]
  split_ifs
  · exact Or.inl rfl
  · exact Or.inr ⟨rfl, rfl⟩

theorem valleyStep_grow (x y : ℝ) :
    ∀ (a : ℝ) (v : ValleyPath), a ≤ valleyStep x y a v := by
  intro a v
  simp only [valleyStep]
  split_ifs
  · exact le_max_left _ _
  · exact le_refl a

/-- The single-valley depth equals the valley step applied to a zero
accumulator. -/
theorem valleyStep_zero (x y : ℝ) (v : ValleyPath) :
    valleyStep x y 0 v = valleyDepthOne v x y := by
  simp only [valleyStep, valleyDepthOne, valleyProfile]
  split_ifs
  · exact max_eq_right (by positivity)
  · rfl

theorem valleyStep_shift (x y : ℝ) :
    ∀ (a : ℝ) (v : ValleyPath), 0 ≤ a →
      valleyStep x y a v = max a (valleyStep x y 0 v) := by
  intro a v ha
  simp only [valleyStep]
  split_ifs
  · rw [← max_assoc, max_eq_left ha]
  · exact (max_eq_left ha).symm

theorem valleyStep_zero_nonneg (x y : ℝ) (v : ValleyPath) :
    0 ≤ valleyStep x y 0 v := by
  rw [valleyStep_zero]
  simp only [valleyDepthOne, valleyProfile]
  split_ifs
  · positivity
  · exact le_refl 0

/-- Total valley carve is nonnegative. -/
theorem calculate_valley_depth_nonneg (valleys : List ValleyPath) (x y : ℝ) :
    0 ≤ calculate_valley_depth valleys x y :=
  foldl_grow (valleyStep x y) (valleyStep_grow x y) valleys 0

/-- Unfolding one valley from the carve fold: the deepest valley wins via
`max`, never a sum. -/
theorem calculate_valley_depth_cons (v : ValleyPath) (vs : List ValleyPath) (x y : ℝ) :
    calculate_valley_depth (v :: vs) x y =
      max (valleyDepthOne v x y) (calculate_valley_depth vs x y) := by
  show vs.foldl (valleyStep x y) (valleyStep x y 0 v) =
    max (valleyDepthOne v x y) (vs.foldl (valleyStep x y) 0)
  rw [← valleyStep_zero x y v]
  exact foldl_shift _ (fun a i ha => valleyStep_shift x y a i ha)
    (valleyStep_zero_nonneg x y) vs _ (valleyStep_zero_nonneg x y v)

/-! ## Remaining helper lemmas -/

/-- Distance to a segment is nonnegative (both branches return a square
root). -/
theorem dlseg_nonneg (px py x1 y1 x2 y2 : ℝ) :
    0 ≤ distance_to_line_segment px py x1 y1 x2 y2 := by
  simp only [distance_to_line_segment]
  split_ifs
  · exact Real.sqrt_nonneg _
  · exact Real.sqrt_nonneg _

/-- At the world boundary the edge falloff forces the height to exactly
`-50`, whatever the incoming height. -/
theorem edgeFalloffAt_boundary (g : ℝ) : edgeFalloffAt half_size g = -50 := by
  simp only [edgeFalloffAt]
  rw [if_pos (by norm_num [half_size, WORLD_SIZE] : half_size > half_size * 0.8)]
  have hf : max 0 (1 - (half_size - half_size * 0.8) / (half_size * 0.2)) = 0 := by
    norm_num [half_size, WORLD_SIZE]
  rw [hf]
  ring

/-- In the falloff band the blended height sits at distance
`falloff · |h + 50|` from the floor `-50`. -/
theorem edgeFalloffAt_add50 (d g : ℝ) (hd : half_size * 0.8 ≤ d) :
    edgeFalloffAt d g + 50 =
      max 0 (1 - (d - half_size * 0.8) / (half_size * 0.2)) * (g + 50) := by
  simp only [edgeFalloffAt]
  by_cases hlt : d > half_size * 0.8
  · rw [if_pos hlt]; ring
  · have hde : d = half_size * 0.8 := le_antisymm (not_lt.1 hlt) hd
    rw [if_neg hlt, hde]
    norm_num

/-! ## Claim theorems -/

/-- **C7** — `fbm` divides the weighted octave sum by the sum of the
amplitudes; under the hypothesis that the noise primitive stays in
`[-1, 1]`, the output stays in `[-1, 1]` for every octave count ≥ 1 and
persistence in `(0, 1)`. -/
theorem fbm_bounded (nz : NoiseFn) (x y : ℝ) (octaves : ℕ)
    (pers lac scale seed : ℝ) (hoct : 1 ≤ octaves) (hp0 : 0 < pers)
    (hp1 : pers < 1) (hnz : ∀ a b c, |nz a b c| ≤ 1) :
    |fbm nz x y octaves pers lac scale seed| ≤ 1 := by
  have hp : 0 ≤ pers := le_of_lt hp0
  have habs := fbmAux_abs_fst_le nz x y seed pers lac hnz hp octaves 0
    (1 / scale) 1 zero_le_one
  have hm := fbmAux_amp_le_snd nz x y seed pers lac hp octaves 0
    (1 / scale) 1 zero_le_one hoct
  have hm0 : (0 : ℝ) < (fbmAux nz x y seed pers lac octaves 0 (1 / scale) 1).2 :=
    lt_of_lt_of_le one_pos hm
  show |(fbmAux nz x y seed pers lac octaves 0 (1 / scale) 1).1 /
      (fbmAux nz x y seed pers lac octaves 0 (1 / scale) 1).2| ≤ 1
  rw [abs_div, abs_of_pos hm0, div_le_one hm0]
  exact habs

/-- Witness for C7 at a concrete instance (zero noise, one octave,
persistence 1/2). -/
theorem fbm_bounded_witness :
    |fbm (constNoise 0) 3 7 6 (1 / 2) 2 1 0| ≤ 1 :=
  fbm_bounded (constNoise 0) 3 7 6 (1 / 2) 2 1 0 (by norm_num) (by norm_num)
    (by norm_num) (fun a b c => by simp [constNoise])

/-- **C8** — both ridged multifractal generators (dream and epic terrain)
fold each octave through `(1 - |noise|)² · prev`, so every accumulated term
is nonnegative and the output is always ≥ 0, for every input, octave count
and seed. -/
theorem ridged_nonneg (nz : NoiseFn) (x y : ℝ) (octaves : ℕ) (scale seed : ℝ) :
    0 ≤ ridged_multifractal nz x y octaves scale seed ∧
      0 ≤ ridged_multifractal_epic nz x y octaves seed :=
  ⟨ridgedAux_nonneg nz x y seed octaves 0 (1 / scale) 1 1 zero_le_one zero_le_one,
   ridgedEpicAux_nonneg nz x y seed octaves 1 1 1 zero_le_one zero_le_one⟩

/-- **C10** — the distance-to-segment computation is total and nonnegative;
when the two endpoints coincide (`length_sq = 0`) it returns the Euclidean
distance to the coincident endpoint instead of dividing by zero. -/
theorem distance_to_line_segment_total (px py x1 y1 x2 y2 : ℝ) :
    0 ≤ distance_to_line_segment px py x1 y1 x2 y2 ∧
      ((x2 - x1) * (x2 - x1) + (y2 - y1) * (y2 - y1) = 0 →
        distance_to_line_segment px py x1 y1 x2 y2 =
          Real.sqrt ((px - x1) ^ 2 + (py - y1) ^ 2)) := by
  refine ⟨dlseg_nonneg px py x1 y1 x2 y2, fun h0 => ?_⟩
  simp only [distance_to_line_segment]
  rw [if_pos h0]

/-- Witness for C10 at the degenerate segment `(0,0)–(0,0)` and query point
`(3,4)`: the distance is `5`. -/
theorem distance_to_line_segment_total_witness :
    0 ≤ distance_to_line_segment 3 4 0 0 0 0 ∧
      distance_to_line_segment 3 4 0 0 0 0 = 5 := by
  have h := distance_to_line_segment_total 3 4 0 0 0 0
  refine ⟨h.1, ?_⟩
  rw [h.2 (by norm_num)]
  rw [show ((3 : ℝ) - 0) ^ 2 + ((4 : ℝ) - 0) ^ 2 = 5 ^ 2 by norm_num,
    Real.sqrt_sq (by norm_num)]

/-- **C2** — inside the spawn radius (`√(x² + y²) < 100`) the final
elevation is `max` of the post-falloff height with the spawn minimum `5`,
applied after every other step; in particular whenever the rest of the
pipeline would drive the height to `≤ 5` there, the result is exactly `5`. -/
theorem spawn_clamp (h : HashFn) (nz : NoiseFn) (ranges : List MountainRange)
    (valleys : List ValleyPath) (x y : ℝ)
    (hsp : Real.sqrt (x ^ 2 + y ^ 2) < 100) :
    calculate_height h nz ranges valleys x y =
        max (heightAfterEdge h nz ranges valleys x y) 5 ∧
      (heightAfterEdge h nz ranges valleys x y ≤ 5 →
        calculate_height h nz ranges valleys x y = 5) := by
  constructor
  · simp only [calculate_height]
    rw [if_pos hsp]
  · intro hle
    simp only [calculate_height]
    rw [if_pos hsp]
    exact max_eq_right hle

/-- Witness for C2 at the origin with constant `-1` noise and no features:
every layer is driven negative (pre-clamp height `-60`) and the final
output is exactly the spawn minimum `5`. -/
theorem spawn_clamp_witness :
    heightAfterEdge (fun _ => 0) (constNoise (-1)) [] [] 0 0 = -60 ∧
      calculate_height (fun _ => 0) (constNoise (-1)) [] [] 0 0 = 5 := by
  have hsp : Real.sqrt ((0 : ℝ) ^ 2 + 0 ^ 2) < 100 := by
    rw [show ((0 : ℝ) ^ 2 + 0 ^ 2) = 0 by norm_num, Real.sqrt_zero]
    norm_num
  have hL : layerSum (fun _ => 0) (constNoise (-1)) [] [] 0 0 = -60 := by
    simp only [layerSum, calculate_mountain_height, calculate_valley_depth,
      List.foldl_nil]
    rw [fbm_const _ _ _ _ _ _ _ _ (by norm_num) (by norm_num),
      fbm_const _ _ _ _ _ _ _ _ (by norm_num) (by norm_num),
      fbm_const _ _ _ _ _ _ _ _ (by norm_num) (by norm_num)]
    norm_num
  have hae : heightAfterEdge (fun _ => 0) (constNoise (-1)) [] [] 0 0 = -60 := by
    simp only [heightAfterEdge, hL, edgeFalloffAt]
    rw [if_neg (by norm_num [half_size, WORLD_SIZE])]
  refine ⟨hae, ?_⟩
  have h2 := (spawn_clamp (fun _ => 0) (constNoise (-1)) [] [] 0 0 hsp).2
  apply h2
  rw [hae]
  norm_num

/-- A volcanic range centered at the origin (radius 100, crater factor
`0.8` at full influence, no sub-peaks) contributes `max 0 (0.8 · ph)` at
its center, for any noise model and hash. -/
theorem volcano_step_origin (h : HashFn) (nz : NoiseFn) (nm : String) (ph : ℝ) :
    mountainStep h nz 0 0 0 ⟨nm, (0, 0), 100, ph, 0, "volcanic"⟩ =
      max 0 (0.8 * ph) := by
  simp only [mountainStep]
  rw [show Real.sqrt (((0 : ℝ) - 0) ^ 2 + ((0 : ℝ) - 0) ^ 2) = 0 by
    rw [show (((0 : ℝ) - 0) ^ 2 + ((0 : ℝ) - 0) ^ 2) = 0 by norm_num, Real.sqrt_zero]]
  rw [if_pos (by norm_num)]
  simp only [List.range_zero, List.foldl_nil, primaryHeight, primaryPeak]
  rw [show Real.sqrt (((0 : ℝ) - 0) ^ 2 + ((0 : ℝ) - 0) ^ 2) = 0 by
    rw [show (((0 : ℝ) - 0) ^ 2 + ((0 : ℝ) - 0) ^ 2) = 0 by norm_num, Real.sqrt_zero]]
  rw [show max (0 : ℝ) (1 - 0 / 100) = 1 by norm_num]
  rw [if_neg (by decide), if_neg (by decide)]
  rw [if_pos trivial, if_pos (by norm_num : (1 : ℝ) > 0.9), Real.one_rpow]
  rw [show (1 : ℝ) * 0.8 * ph = 0.8 * ph by ring]

/-- The two coincident volcanic ranges of the C5 "not summed" example:
peak heights 100 and 50 at the same center. -/
def coincidentTall : MountainRange := ⟨"Tall", (0, 0), 100, 100, 0, "volcanic"⟩

/-- See `coincidentTall`. -/
def coincidentShort : MountainRange := ⟨"Short", (0, 0), 100, 50, 0, "volcanic"⟩

/-- **C5** — the total mountain contribution is the `max` over ranges of
each range's contribution (the fold splits over `++` as a `max`, never a
sum), and a single in-range contribution is the `max` of the primary shaped
peak and all of its sub-peak bumps (clamped below by the zero
accumulator).  In particular two coincident ranges contribute the larger of
their two individual contributions, not the sum. -/
theorem mountain_max_blend (h : HashFn) (nz : NoiseFn)
    (l₁ l₂ : List MountainRange) (m : MountainRange) (x y : ℝ) :
    calculate_mountain_height h nz (l₁ ++ l₂) x y =
        max (calculate_mountain_height h nz l₁ x y)
          (calculate_mountain_height h nz l₂ x y) ∧
      calculate_mountain_height h nz [m] x y =
        (if Real.sqrt ((x - m.center.1) ^ 2 + (y - m.center.2) ^ 2) < m.radius * 1.5
         then max 0 ((List.range m.peaks).foldr
            (fun i b => max (subPeakBump h m x y i) b) (primaryHeight h nz m x y))
         else 0) ∧
      calculate_mountain_height h nz [coincidentTall, coincidentShort] 0 0 =
        calculate_mountain_height h nz [coincidentTall] 0 0 := by
  refine ⟨?_, ?_, ?_⟩
  · exact foldl_append_max _ (mountainStep_grow h nz x y)
      (fun a i ha => mountainStep_shift h nz x y a i ha)
      (mountainStep_zero_nonneg h nz x y) l₁ l₂
  · show mountainStep h nz x y 0 m = _
    simp only [mountainStep]
    by_cases hd : Real.sqrt ((x - m.center.1) ^ 2 + (y - m.center.2) ^ 2) <
        m.radius * 1.5
    · rw [if_pos hd, if_pos hd]
      exact max0_foldl_eq_foldr _ _ (subPeakStep_cases h m x y) _ _
    · rw [if_neg hd, if_neg hd]
  · rw [calculate_mountain_height_cons]
    have hTall : mountainStep h nz 0 0 0 coincidentTall = max 0 (0.8 * 100) :=
      volcano_step_origin h nz "Tall" 100
    have hShort : calculate_mountain_height h nz [coincidentShort] 0 0 =
        max 0 (0.8 * 50) := volcano_step_origin h nz "Short" 50
    have hTall' : calculate_mountain_height h nz [coincidentTall] 0 0 =
        max 0 (0.8 * 100) := volcano_step_origin h nz "Tall" 100
    rw [hTall, hShort, hTall']
    norm_num

/-- **C6** — valley carving: the total carve `max`-combines the individual
valley depths (deepest wins, never a sum); each valley's depth is the
profile `(1 − dist/(2·width))² · 40` inside `dist < 2·width` and `0`
outside; the profile is antitone in the distance and reaches the maximum
`40` at distance `0`. -/
theorem valley_carving (vs : List ValleyPath) (v : ValleyPath) (x y d₁ d₂ : ℝ) :
    calculate_valley_depth (v :: vs) x y =
        max (valleyDepthOne v x y) (calculate_valley_depth vs x y) ∧
      valleyDepthOne v x y =
        valleyProfile v.width
          (distance_to_line_segment x y v.vstart.1 v.vstart.2 v.vend.1 v.vend.2) ∧
      (0 < v.width → 0 ≤ d₁ → d₁ ≤ d₂ →
        valleyProfile v.width d₂ ≤ valleyProfile v.width d₁) ∧
      (0 < v.width → valleyProfile v.width 0 = 40) := by
  refine ⟨calculate_valley_depth_cons v vs x y, rfl, ?_, ?_⟩
  · intro hw _ h12
    have hw2 : (0 : ℝ) < v.width * 2 := by linarith
    simp only [valleyProfile]
    by_cases hd2 : d₂ < v.width * 2
    · have hd1 : d₁ < v.width * 2 := lt_of_le_of_lt h12 hd2
      rw [if_pos hd2, if_pos hd1]
      have e2 : 0 ≤ 1 - d₂ / (v.width * 2) := by
        rw [sub_nonneg]
        exact (div_le_one hw2).2 (le_of_lt hd2)
      have e12 : 1 - d₂ / (v.width * 2) ≤ 1 - d₁ / (v.width * 2) := by
        have := (div_le_div_right hw2).2 h12
        linarith
      have := pow_le_pow_left e2 e12 2
      linarith
    · rw [if_neg hd2]
      split_ifs
      · positivity
      · exact le_refl 0
  · intro hw
    simp only [valleyProfile]
    rw [if_pos (by linarith : (0 : ℝ) < v.width * 2)]
    norm_num

/-- The valley used in the C6 witness: from `(0,0)` to `(100,0)` with
width `10` (the spec's §8 example). -/
def witnessValley : ValleyPath := ⟨"Witness", (0, 0), (100, 0), 10⟩

/-- Witness for C6: at the spec's example valley, the combination rule, the
profile antitonicity between distances `5` and `30`, and the maximum `40`
at distance `0`, all at concrete inputs. -/
theorem valley_carving_witness :
    calculate_valley_depth [witnessValley] 50 30 =
        max (valleyDepthOne witnessValley 50 30) (calculate_valley_depth [] 50 30) ∧
      valleyProfile 10 30 ≤ valleyProfile 10 5 ∧
      valleyProfile 10 0 = 40 := by
  have h := valley_carving [] witnessValley 50 30 5 30
  exact ⟨h.1, h.2.2.1 (by norm_num [witnessValley]) (by norm_num) (by norm_num),
    h.2.2.2 (by norm_num [witnessValley])⟩

/-- **C3 (amended)** — the generator performs no construction-time
validation: a `MountainRange` with `radius ≤ 0` and a `ValleyPath` with
`width ≤ 0` are silently skipped during sampling (their guards can never
fire over a nonnegative distance), contributing nothing, and no error is
ever raised. -/
theorem invalid_features_silently_ignored (h : HashFn) (nz : NoiseFn)
    (m : MountainRange) (rest : List MountainRange)
    (v : ValleyPath) (vs : List ValleyPath) (x y : ℝ) :
    (m.radius ≤ 0 →
        calculate_mountain_height h nz (m :: rest) x y =
          calculate_mountain_height h nz rest x y) ∧
      (v.width ≤ 0 →
        calculate_valley_depth (v :: vs) x y = calculate_valley_depth vs x y) := by
  constructor
  · intro hr
    have hstep : mountainStep h nz x y 0 m = 0 := by
      simp only [mountainStep]
      rw [if_neg (not_lt.2 (le_trans (by linarith) (Real.sqrt_nonneg _)))]
    show rest.foldl (mountainStep h nz x y) (mountainStep h nz x y 0 m) =
      rest.foldl (mountainStep h nz x y) 0
    rw [hstep]
  · intro hw
    have hstep : valleyStep x y 0 v = 0 := by
      simp only [valleyStep]
      rw [if_neg (not_lt.2 (le_trans (by linarith) (dlseg_nonneg _ _ _ _ _ _)))]
    show vs.foldl (valleyStep x y) (valleyStep x y 0 v) =
      vs.foldl (valleyStep x y) 0
    rw [hstep]

/-- Witness for the amended C3 at concrete invalid features. -/
theorem invalid_features_silently_ignored_witness :
    calculate_mountain_height (fun _ => 0) (constNoise 0)
        [⟨"Bad", (0, 0), -1, 100, 0, "jagged"⟩] 3 4 =
      calculate_mountain_height (fun _ => 0) (constNoise 0) [] 3 4 ∧
      calculate_valley_depth [⟨"BadV", (0, 0), (1, 0), -5⟩] 3 4 =
        calculate_valley_depth [] 3 4 := by
  have h := invalid_features_silently_ignored (fun _ => 0) (constNoise 0)
    ⟨"Bad", (0, 0), -1, 100, 0, "jagged"⟩ [] ⟨"BadV", (0, 0), (1, 0), -5⟩ [] 3 4
  exact ⟨h.1 (by norm_num), h.2 (by norm_num)⟩

/-- Counterexample for C3 as stated: sampling a configuration containing a
`MountainRange` with negative radius (and a `ValleyPath` with negative
width) does not fail before sampling — the elevation pipeline evaluates
normally and the invalid features are silently defaulted to a zero
contribution. -/
theorem invalid_config_samples_anyway :
    calculate_mountain_height (fun _ => 0) (constNoise 0)
        [⟨"Bad", (0, 0), -1, 100, 0, "jagged"⟩] 3 4 = 0 ∧
      calculate_valley_depth [⟨"BadV", (0, 0), (1, 0), -5⟩] 3 4 = 0 := by
  constructor
  · show mountainStep (fun _ => 0) (constNoise 0) 3 4 0 _ = 0
    simp only [mountainStep]
    rw [if_neg (not_lt.2 (le_trans (by norm_num) (Real.sqrt_nonneg _)))]
  · show valleyStep 3 4 0 _ = 0
    simp only [valleyStep]
    rw [if_neg (not_lt.2 (le_trans (by norm_num) (dlseg_nonneg _ _ _ _ _ _)))]

/-- **C9** — in the falloff band (`0.8 · half_size ≤ d ≤ half_size`, `d`
the Chebyshev distance from the origin) the height is blended linearly
toward the floor `-50`: the distance to the floor shrinks monotonically as
`d` grows; at the world boundary the falloff forces exactly `-50`, which is
below `WATER_LEVEL`; consequently the full elevation at the extreme world
corner `(half_size, half_size)` is exactly `-50` for every noise model,
hash salt and feature configuration. -/
theorem edge_falloff_closure (g d₁ d₂ : ℝ) (h1 : half_size * 0.8 ≤ d₁)
    (h12 : d₁ ≤ d₂) (h2 : d₂ ≤ half_size) :
    |edgeFalloffAt d₂ g + 50| ≤ |edgeFalloffAt d₁ g + 50| ∧
      edgeFalloffAt half_size g = -50 ∧
      edgeFalloffAt half_size g ≤ WATER_LEVEL ∧
      ∀ (h : HashFn) (nz : NoiseFn) (ranges : List MountainRange)
        (valleys : List ValleyPath),
        calculate_height h nz ranges valleys half_size half_size = -50 := by
  refine ⟨?_, edgeFalloffAt_boundary g, ?_, ?_⟩
  · rw [edgeFalloffAt_add50 d₂ g (le_trans h1 h12), edgeFalloffAt_add50 d₁ g h1]
    have hb : (0 : ℝ) < half_size * 0.2 := by norm_num [half_size, WORLD_SIZE]
    have hF2 : (0 : ℝ) ≤ max 0 (1 - (d₂ - half_size * 0.8) / (half_size * 0.2)) :=
      le_max_left _ _
    have hF1 : (0 : ℝ) ≤ max 0 (1 - (d₁ - half_size * 0.8) / (half_size * 0.2)) :=
      le_max_left _ _
    have hFle : max 0 (1 - (d₂ - half_size * 0.8) / (half_size * 0.2)) ≤
        max 0 (1 - (d₁ - half_size * 0.8) / (half_size * 0.2)) := by
      apply max_le_max (le_refl 0)
      have := (div_le_div_right hb).2 (by linarith : d₁ - half_size * 0.8 ≤
        d₂ - half_size * 0.8)
      linarith
    rw [abs_mul, abs_mul, abs_of_nonneg hF2, abs_of_nonneg hF1]
    exact mul_le_mul_of_nonneg_right hFle (abs_nonneg _)
  · rw [edgeFalloffAt_boundary g]
    norm_num [WATER_LEVEL]
  · intro h nz ranges valleys
    have hcorner : (100 : ℝ) ≤ Real.sqrt (half_size ^ 2 + half_size ^ 2) := by
      rw [Real.le_sqrt (by norm_num) (by positivity)]
      norm_num [half_size, WORLD_SIZE]
    simp only [calculate_height]
    rw [if_neg (not_lt.2 hcorner)]
    simp only [heightAfterEdge]
    rw [show max |half_size| |half_size| = half_size by
      rw [max_self, abs_of_nonneg (by norm_num [half_size, WORLD_SIZE])]]
    exact edgeFalloffAt_boundary _

/-- Witness for C9 at the band endpoints `d₁ = 0.8 · half_size`,
`d₂ = half_size`, incoming height `0`, and the corner elevation with zero
noise and empty feature tables. -/
theorem edge_falloff_closure_witness :
    |edgeFalloffAt half_size 0 + 50| ≤ |edgeFalloffAt (half_size * 0.8) 0 + 50| ∧
      edgeFalloffAt half_size 0 = -50 ∧
      edgeFalloffAt half_size 0 ≤ WATER_LEVEL ∧
      calculate_height (fun _ => 0) (constNoise 0) [] [] half_size half_size = -50 := by
  have h := edge_falloff_closure 0 (half_size * 0.8) half_size (le_refl _)
    (by norm_num [half_size, WORLD_SIZE]) (le_refl _)
  exact ⟨h.1, h.2.1, h.2.2.1, h.2.2.2 (fun _ => 0) (constNoise 0) [] []⟩

/-- **C4 (amended)** — domain warping is applied exactly once per elevation
query and the base, hills and detail layers all sample that same warped
coordinate; the mountain and valley contributions, however, sample the
original unwarped `(x, y)`. -/
theorem single_domain_warp (h : HashFn) (nz : NoiseFn)
    (ranges : List MountainRange) (valleys : List ValleyPath) (x y : ℝ) :
    calculate_height h nz ranges valleys x y =
      (let w := domain_warp nz x y 0.3 600 SEED
       let pre := fbm nz w.1 w.2 4 0.5 2 800 SEED * 25 + 15 +
         fbm nz w.1 w.2 5 0.5 2 300 (SEED + 1000) * 40 +
         fbm nz w.1 w.2 6 0.5 2 80 (SEED + 2000) * 10 +
         calculate_mountain_height h nz ranges x y -
         calculate_valley_depth valleys x y
       let he := edgeFalloffAt (max |x| |y|) pre
       if Real.sqrt (x ^ 2 + y ^ 2) < 100 then max he 5 else he) := rfl

/-! ## Concrete evaluation lemmas for the C4 counterexample -/

/-- The edge falloff is the identity at the origin (Chebyshev distance 0). -/
theorem edgeFalloffAt_origin (g : ℝ) : edgeFalloffAt 0 g = g := by
  simp only [edgeFalloffAt]
  rw [if_neg (by norm_num [half_size, WORLD_SIZE])]

/-- `√(0² + 0²) < 100` — the origin is inside the spawn radius. -/
theorem origin_in_spawn : Real.sqrt ((0 : ℝ) ^ 2 + 0 ^ 2) < 100 := by
  rw [show ((0 : ℝ) ^ 2 + 0 ^ 2) = 0 by norm_num, Real.sqrt_zero]
  norm_num

/-- The volcanic range used by the C4 counterexample: centered at the
origin, radius 100, peak height 100, no sub-peaks. -/
def volcanoAtOrigin : MountainRange := ⟨"V", (0, 0), 100, 100, 0, "volcanic"⟩

/-- Under constant noise `1`, the shipped warp parameters move the origin
to `(180, 180)`. -/
theorem c4_warp_origin :
    domain_warp (constNoise 1) 0 0 0.3 600 SEED = (180, 180) := by
  simp only [domain_warp]
  rw [fbm_const _ _ _ _ _ _ _ _ (by norm_num) (by norm_num),
    fbm_const _ _ _ _ _ _ _ _ (by norm_num) (by norm_num)]
  norm_num

/-- The volcanic range contributes exactly `80` at its own center (full
influence, crater depression `0.8`, peak height `100`). -/
theorem c4_cmh_origin :
    calculate_mountain_height (fun _ => 0) (constNoise 1) [volcanoAtOrigin] 0 0 = 80 := by
  show mountainStep (fun _ => 0) (constNoise 1) 0 0 0 volcanoAtOrigin = 80
  simp only [mountainStep, volcanoAtOrigin]
  rw [show Real.sqrt (((0 : ℝ) - 0) ^ 2 + ((0 : ℝ) - 0) ^ 2) = 0 by
    rw [show (((0 : ℝ) - 0) ^ 2 + ((0 : ℝ) - 0) ^ 2) = 0 by norm_num, Real.sqrt_zero]]
  rw [if_pos (by norm_num)]
  simp only [List.range_zero, List.foldl_nil, primaryHeight, primaryPeak]
  rw [show Real.sqrt (((0 : ℝ) - 0) ^ 2 + ((0 : ℝ) - 0) ^ 2) = 0 by
    rw [show (((0 : ℝ) - 0) ^ 2 + ((0 : ℝ) - 0) ^ 2) = 0 by norm_num, Real.sqrt_zero]]
  rw [show max (0 : ℝ) (1 - 0 / 100) = 1 by norm_num]
  rw [if_neg (by decide), if_neg (by decide)]
  rw [if_pos trivial, if_pos (by norm_num : (1 : ℝ) > 0.9), Real.one_rpow]
  norm_num

/-- The volcanic range contributes nothing at the warped point
`(180, 180)`, which lies outside `1.5 ×` its radius. -/
theorem c4_cmh_warped :
    calculate_mountain_height (fun _ => 0) (constNoise 1) [volcanoAtOrigin] 180 180 = 0 := by
  show mountainStep (fun _ => 0) (constNoise 1) 180 180 0 volcanoAtOrigin = 0
  simp only [mountainStep, volcanoAtOrigin]
  rw [if_neg]
  push_neg
  rw [show (((180 : ℝ) - 0) ^ 2 + ((180 : ℝ) - 0) ^ 2) = 64800 by norm_num]
  calc (100 : ℝ) * 1.5 = 150 := by norm_num
    _ ≤ Real.sqrt 64800 := by
        rw [Real.le_sqrt (by norm_num) (by norm_num)]
        norm_num

/-- Counterexample to C4 as stated: with constant noise `1` and the
volcanic range at the origin, the source elevation at the origin (whose
mountain layer samples the *unwarped* point) differs from the variant in
which every layer samples the warped coordinate. -/
theorem warp_scope_counterexample :
    calculate_height (fun _ => 0) (constNoise 1) [volcanoAtOrigin] [] 0 0 ≠
      calculate_height_specWarp (fun _ => 0) (constNoise 1) [volcanoAtOrigin] [] 0 0 := by
  have hL : calculate_height (fun _ => 0) (constNoise 1) [volcanoAtOrigin] [] 0 0 = 170 := by
    simp only [calculate_height, heightAfterEdge, layerSum, calculate_valley_depth,
      List.foldl_nil]
    rw [if_pos origin_in_spawn, c4_cmh_origin]
    rw [fbm_const _ _ _ _ _ _ _ _ (by norm_num) (by norm_num),
      fbm_const _ _ _ _ _ _ _ _ (by norm_num) (by norm_num),
      fbm_const _ _ _ _ _ _ _ _ (by norm_num) (by norm_num)]
    rw [show max |(0 : ℝ)| |(0 : ℝ)| = 0 by simp, edgeFalloffAt_origin]
    norm_num
  have hR : calculate_height_specWarp (fun _ => 0) (constNoise 1) [volcanoAtOrigin] [] 0 0 = 90 := by
    simp only [calculate_height_specWarp, calculate_valley_depth, List.foldl_nil]
    rw [c4_warp_origin]
    show (if Real.sqrt ((0 : ℝ) ^ 2 + 0 ^ 2) < 100 then
        max (edgeFalloffAt (max |(0 : ℝ)| |(0 : ℝ)|)
          (fbm (constNoise 1) 180 180 4 0.5 2 800 SEED * 25 + 15 +
            fbm (constNoise 1) 180 180 5 0.5 2 300 (SEED + 1000) * 40 +
            fbm (constNoise 1) 180 180 6 0.5 2 80 (SEED + 2000) * 10 +
            calculate_mountain_height (fun _ => 0) (constNoise 1) [volcanoAtOrigin] 180 180 -
            0)) 5
      else edgeFalloffAt (max |(0 : ℝ)| |(0 : ℝ)|)
          (fbm (constNoise 1) 180 180 4 0.5 2 800 SEED * 25 + 15 +
            fbm (constNoise 1) 180 180 5 0.5 2 300 (SEED + 1000) * 40 +
            fbm (constNoise 1) 180 180 6 0.5 2 80 (SEED + 2000) * 10 +
            calculate_mountain_height (fun _ => 0) (constNoise 1) [volcanoAtOrigin] 180 180 -
            0)) = 90
    rw [if_pos origin_in_spawn, c4_cmh_warped]
    rw [fbm_const _ _ _ _ _ _ _ _ (by norm_num) (by norm_num),
      fbm_const _ _ _ _ _ _ _ _ (by norm_num) (by norm_num),
      fbm_const _ _ _ _ _ _ _ _ (by norm_num) (by norm_num)]
    rw [show max |(0 : ℝ)| |(0 : ℝ)| = 0 by simp, edgeFalloffAt_origin]
    norm_num
  rw [hL, hR]
  norm_num

/-! ## C1: run-to-run reproducibility and the salted string hash

`calculate_mountain_height` seeds its noise and jitters its sub-peaks with
Python's built-in `hash()` of the range name.  CPython salts string hashes
per process (PYTHONHASHSEED), so the hash function is an ambient parameter
of a run, not part of the configuration or `SEED`.  The following
development exhibits two hash functions (two interpreter runs) under which
the same configuration, seed and noise model yield different elevations and
different height grids. -/

/-- A noise model that is `1` beyond `x = 1000` and `0` before — bounded,
nonnegative, and sensitive to the seed offset (`seed * 0.1`) that the hash
feeds into `ridged_multifractal`. -/
def saltNoise : NoiseFn := fun a _ _ => if 1000 < a then 1 else 0

theorem saltNoise_nonneg : ∀ a b c, 0 ≤ saltNoise a b c := by
  intro a b c
  simp only [saltNoise]
  split_ifs
  · norm_num
  · norm_num

/-- The jagged range used by the C1 development: centered at the origin,
radius 100, peak height 100, no sub-peaks. -/
def jaggedAtOrigin : MountainRange := ⟨"M", (0, 0), 100, 100, 0, "jagged"⟩

/-- An interpreter run in which `hash` returns `0` on every string. -/
def hashRunA : HashFn := fun _ => 0

/-- An interpreter run in which `hash` returns `-42069` on every string. -/
def hashRunB : HashFn := fun _ => -42069

/-- Under run A's hash, the jagged ridge noise at the origin evaluates to
`0` (every octave's sample sits beyond the noise step). -/
theorem c1_ridged_A : ridged_multifractal saltNoise 0 0 6 150 42069 = 0 := by
  norm_num [ridged_multifractal, ridgedAux, simple_noise, saltNoise]

/-- Under run B's hash the same ridge noise evaluates to `1.96875` (every
octave's sample sits before the noise step). -/
theorem c1_ridged_B : ridged_multifractal saltNoise 0 0 6 150 0 = 1.96875 := by
  norm_num [ridged_multifractal, ridgedAux, simple_noise, saltNoise]

/-- Run A: the jagged range contributes `70` at the origin. -/
theorem c1_cmh_A :
    calculate_mountain_height hashRunA saltNoise [jaggedAtOrigin] 0 0 = 70 := by
  show mountainStep hashRunA saltNoise 0 0 0 jaggedAtOrigin = 70
  simp only [mountainStep, jaggedAtOrigin, hashRunA]
  rw [show Real.sqrt (((0 : ℝ) - 0) ^ 2 + ((0 : ℝ) - 0) ^ 2) = 0 by
    rw [show (((0 : ℝ) - 0) ^ 2 + ((0 : ℝ) - 0) ^ 2) = 0 by norm_num, Real.sqrt_zero]]
  rw [if_pos (by norm_num)]
  simp only [List.range_zero, List.foldl_nil, primaryHeight, primaryPeak]
  rw [show Real.sqrt (((0 : ℝ) - 0) ^ 2 + ((0 : ℝ) - 0) ^ 2) = 0 by
    rw [show (((0 : ℝ) - 0) ^ 2 + ((0 : ℝ) - 0) ^ 2) = 0 by norm_num, Real.sqrt_zero]]
  rw [show max (0 : ℝ) (1 - 0 / 100) = 1 by norm_num]
  rw [if_pos trivial]
  rw [show SEED + ((hashRunA "M" : ℤ) : ℝ) = 42069 by norm_num [SEED, hashRunA]]
  rw [c1_ridged_A, Real.one_rpow]
  norm_num

/-- Run B: the jagged range contributes `168.4375` at the origin — a
different elevation from run A's `70` with identical configuration and
seed. -/
theorem c1_cmh_B :
    calculate_mountain_height hashRunB saltNoise [jaggedAtOrigin] 0 0 = 168.4375 := by
  show mountainStep hashRunB saltNoise 0 0 0 jaggedAtOrigin = 168.4375
  simp only [mountainStep, jaggedAtOrigin, hashRunB]
  rw [show Real.sqrt (((0 : ℝ) - 0) ^ 2 + ((0 : ℝ) - 0) ^ 2) = 0 by
    rw [show (((0 : ℝ) - 0) ^ 2 + ((0 : ℝ) - 0) ^ 2) = 0 by norm_num, Real.sqrt_zero]]
  rw [if_pos (by norm_num)]
  simp only [List.range_zero, List.foldl_nil, primaryHeight, primaryPeak]
  rw [show Real.sqrt (((0 : ℝ) - 0) ^ 2 + ((0 : ℝ) - 0) ^ 2) = 0 by
    rw [show (((0 : ℝ) - 0) ^ 2 + ((0 : ℝ) - 0) ^ 2) = 0 by norm_num, Real.sqrt_zero]]
  rw [show max (0 : ℝ) (1 - 0 / 100) = 1 by norm_num]
  rw [if_pos trivial]
  rw [show SEED + ((hashRunB "M" : ℤ) : ℝ) = 0 by norm_num [SEED, hashRunB]]
  rw [c1_ridged_B, Real.one_rpow]
  norm_num

/-- **C1 (code bug)** — with the configuration, seed and noise model all
held fixed, two interpreter runs (two string-hash functions) produce
different elevations at the origin and different height grids: the
generator's output depends on Python's per-process hash salt, so two runs
do not produce identical vertex buffers. -/
theorem hash_salt_breaks_reproducibility :
    calculate_height hashRunA saltNoise [jaggedAtOrigin] [] 0 0 ≠
        calculate_height hashRunB saltNoise [jaggedAtOrigin] [] 0 0 ∧
      heightGrid hashRunA saltNoise [jaggedAtOrigin] [] ≠
        heightGrid hashRunB saltNoise [jaggedAtOrigin] [] := by
  have hb : ∀ (k : ℕ) (scale seed : ℝ), 1 ≤ k →
      0 ≤ fbm saltNoise (domain_warp saltNoise 0 0 0.3 600 SEED).1
        (domain_warp saltNoise 0 0 0.3 600 SEED).2 k 0.5 2 scale seed :=
    fun k scale seed _ =>
      fbm_nonneg saltNoise _ _ k 0.5 2 scale seed saltNoise_nonneg (by norm_num)
  have hA : calculate_height hashRunA saltNoise [jaggedAtOrigin] [] 0 0 =
      fbm saltNoise (domain_warp saltNoise 0 0 0.3 600 SEED).1
          (domain_warp saltNoise 0 0 0.3 600 SEED).2 4 0.5 2 800 SEED * 25 + 15 +
        fbm saltNoise (domain_warp saltNoise 0 0 0.3 600 SEED).1
          (domain_warp saltNoise 0 0 0.3 600 SEED).2 5 0.5 2 300 (SEED + 1000) * 40 +
        fbm saltNoise (domain_warp saltNoise 0 0 0.3 600 SEED).1
          (domain_warp saltNoise 0 0 0.3 600 SEED).2 6 0.5 2 80 (SEED + 2000) * 10 +
        70 := by
    simp only [calculate_height, heightAfterEdge, layerSum, calculate_valley_depth,
      List.foldl_nil]
    rw [if_pos origin_in_spawn, c1_cmh_A]
    rw [show max |(0 : ℝ)| |(0 : ℝ)| = 0 by simp, edgeFalloffAt_origin]
    rw [max_eq_left]
    · ring
    · have h1 := hb 4 800 SEED (by norm_num)
      have h2 := hb 5 300 (SEED + 1000) (by norm_num)
      have h3 := hb 6 80 (SEED + 2000) (by norm_num)
      linarith
  have hB : calculate_height hashRunB saltNoise [jaggedAtOrigin] [] 0 0 =
      fbm saltNoise (domain_warp saltNoise 0 0 0.3 600 SEED).1
          (domain_warp saltNoise 0 0 0.3 600 SEED).2 4 0.5 2 800 SEED * 25 + 15 +
        fbm saltNoise (domain_warp saltNoise 0 0 0.3 600 SEED).1
          (domain_warp saltNoise 0 0 0.3 600 SEED).2 5 0.5 2 300 (SEED + 1000) * 40 +
        fbm saltNoise (domain_warp saltNoise 0 0 0.3 600 SEED).1
          (domain_warp saltNoise 0 0 0.3 600 SEED).2 6 0.5 2 80 (SEED + 2000) * 10 +
        168.4375 := by
    simp only [calculate_height, heightAfterEdge, layerSum, calculate_valley_depth,
      List.foldl_nil]
    rw [if_pos origin_in_spawn, c1_cmh_B]
    rw [show max |(0 : ℝ)| |(0 : ℝ)| = 0 by simp, edgeFalloffAt_origin]
    rw [max_eq_left]
    · ring
    · have h1 := hb 4 800 SEED (by norm_num)
      have h2 := hb 5 300 (SEED + 1000) (by norm_num)
      have h3 := hb 6 80 (SEED + 2000) (by norm_num)
      linarith
  have hne : calculate_height hashRunA saltNoise [jaggedAtOrigin] [] 0 0 ≠
      calculate_height hashRunB saltNoise [jaggedAtOrigin] [] 0 0 := by
    rw [hA, hB]
    intro heq
    have : (70 : ℝ) = 168.4375 := by linarith
    norm_num at this
  refine ⟨hne, fun hgrid => hne ?_⟩
  have hcell : ((heightGrid hashRunA saltNoise [jaggedAtOrigin] [])[100]?).map
        (fun r => r[100]?) =
      ((heightGrid hashRunB saltNoise [jaggedAtOrigin] [])[100]?).map
        (fun r => r[100]?) := by
    rw [hgrid]
  simp only [heightGrid, RESOLUTION, List.getElem?_map,
    List.getElem?_range (show 100 < 200 + 1 by norm_num), Option.map_some,
    Option.map_some', Option.some.injEq] at hcell
  rw [show -half_size + (100 : ℕ) * (WORLD_SIZE / ((200 : ℕ) : ℝ)) = 0 by
    norm_num [half_size, WORLD_SIZE]] at hcell
  exact hcell

end DreamTerrain
